import Mathlib

/-!
Verification development for the joi-of-cql library (index.js).

The library layers CQL (Cassandra) column-type metadata on top of the joi
validation engine (joi v8.0.4).  We shallowly embed the CQL-specific layer:
JavaScript values are modelled by the inductive `JVal`, a joi metadata record
(one argument of a chained `.meta(...)` call) by an association list with
unique keys, and a validator by the ordered list of such records that
joi v8 `describe()` exposes (joi appends each `.meta` argument to the
`_meta` array of the clone it returns, and `describe()` reports that array
unchanged).
-/

/-- A JavaScript value, restricted to the shapes the library manipulates.
`int` covers the integral finite numbers appearing in the fixtures,
`inf`/`negInf` the two infinities, and `fn` a function value identified by a
descriptive tag (the serialize/deserialize handlers stored in metadata). -/
inductive JVal where
  | str (s : String)
  | int (n : Int)
  | inf
  | negInf
  | boolean (b : Bool)
  | null
  | undefVal
  | arr (elems : List JVal)
  | obj (fields : List (String × JVal))
  | fn (tag : String)

/-- One metadata record: the object literal passed to a single `.meta` call.
Keys are unique, as in a JavaScript object literal. -/
abbrev MetaObj := List (String × JVal)

/-- The ordered chain of metadata records carried by a validator, as
reported by joi `describe().meta`. -/
abbrev Metas := List MetaObj

/-- JavaScript truthiness of a `JVal`.  Empty strings, zero, `null`,
`undefined` and `false` are falsy; every object, array and function is
truthy. -/
def jsTruthy : JVal → Bool
  | .str s => s != ""
  | .int n => n != 0
  | .inf => true
  | .negInf => true
  | .boolean b => b
  | .null => false
  | .undefVal => false
  | .arr _ => true
  | .obj _ => true
  | .fn _ => true

/-- `key in m` for a metadata record: the key is an own property, whatever
its value (including `undefined`). -/
def hasKey (o : MetaObj) (k : String) : Bool := o.any (fun kv => kv.1 == k)

/-- JavaScript property access `o[k]`: the stored value, or `undefined` when
the key is absent. -/
def jsGet (o : MetaObj) (k : String) : JVal :=
  match o.find? (fun kv => kv.1 == k) with
  | some kv => kv.2
  | none => .undefVal

/-- `findMeta` from index.js: filter the describe-order metadata chain down
to the records containing the given key and return the last one
(`meta[meta.length - 1]`), which is `undefined` (here `none`) when no record
contains the key.  Note that the source returns that single record as-is; it
does not fold the other records of the chain into it. -/
def findMeta (m : Metas) (k : String) : Option MetaObj :=
  (m.filter (fun o => hasKey o k)).getLast?

/-- `findMetaValue` from index.js: `(findMeta(any, key) || \x7b\x7d)[key]`. -/
def findMetaValue (m : Metas) (k : String) : JVal :=
  match findMeta m k with
  | some o => jsGet o k
  | none => .undefVal

/-- The `x || []` idiom used by the schema-key getters. -/
def jsOrEmptyArr (v : JVal) : JVal := if jsTruthy v then v else .arr []

/-- An object-shaped joi schema: its declared children (each a field name
with the metadata chain of its validator), absent for object validators
built without a shape (such as the `map` builder), plus its own metadata
chain. -/
structure ObjectSchema where
  children : Option (List (String × Metas))
  metas : Metas

/-- `joi.constructor.prototype.toCql` from index.js: the canonical CQL
record of a single validator is `findMeta(this)`. -/
def anyToCql (m : Metas) : Option MetaObj := findMeta m "cql"

/-- Result shape of `proto.toCql`: either a single record (objects without
children, i.e. maps) or a field-name keyed mapping.  In the mapping every
entry carries an `Option MetaObj`; `none` models a JavaScript property that
is present but bound to `undefined`. -/
inductive CqlExport where
  | single (a : Option MetaObj)
  | mapping (fields : List (String × Option MetaObj))

/-- `proto.toCql` from index.js.  With children present it reduces over
them, assigning `memo[child.key] = findMeta(child.schema)` for every child;
child keys are unique in a joi object schema, so the reduce is a map. -/
def objToCql (s : ObjectSchema) : CqlExport :=
  match s.children with
  | none => .single (findMeta s.metas "cql")
  | some cs => .mapping (cs.map (fun kv => (kv.1, findMeta kv.2 "cql")))

/-- The own keys of a `toCql` mapping result, in assignment order. -/
def exportKeys : CqlExport → List String
  | .single _ => []
  | .mapping fs => fs.map (fun kv => kv.1)

/-- Lookup of a field in a `toCql` mapping result: `some none` means the
key is present but bound to `undefined`. -/
def exportLookup : CqlExport → String → Option (Option MetaObj)
  | .single _, _ => none
  | .mapping fs, k =>
    match fs.find? (fun kv => kv.1 == k) with
    | some kv => some kv.2
    | none => none

/-- `proto.partitionKey(name)` setter branch: append a
`cqlPartitionKey` metadata record (joi `.meta` clones the schema and
appends, so the original schema value is untouched). -/
def pkSet (s : ObjectSchema) (v : JVal) : ObjectSchema :=
  ⟨s.children, s.metas ++ [[("cqlPartitionKey", v)]]⟩

/-- `proto.partitionKey()` getter branch:
`findMetaValue(this, "cqlPartitionKey") || []`. -/
def pkGet (s : ObjectSchema) : JVal :=
  jsOrEmptyArr (findMetaValue s.metas "cqlPartitionKey")

/-- `proto.clusteringKey(name)` setter branch. -/
def ckSet (s : ObjectSchema) (v : JVal) : ObjectSchema :=
  ⟨s.children, s.metas ++ [[("cqlClusteringKey", v)]]⟩

/-- `proto.clusteringKey()` getter branch. -/
def ckGet (s : ObjectSchema) : JVal :=
  jsOrEmptyArr (findMetaValue s.metas "cqlClusteringKey")

/-- Result of calling `proto.lookupKeys`: either a retrieved value or a
derived schema. -/
inductive LookupOut where
  | value (v : JVal)
  | derived (s : ObjectSchema)

/-- `proto.lookupKeys` from index.js, applied to its `arguments` list.
With no arguments it is the getter.  With a first argument that is an array
it stores that array.  Otherwise it evaluates `slice(arguments)` where
`slice` was bound at module scope by `var slice = Array.prototype.slice.call`:
property lookup of `call` on the slice function yields the inherited,
unbound `Function.prototype.call`, and the file is in strict mode, so the
plain call `slice(arguments)` invokes `Function.prototype.call` with an
`undefined` this value and throws a TypeError before any schema is built. -/
def lookupKeysCall (s : ObjectSchema) (args : List JVal) : Except String LookupOut :=
  match args with
  | [] => .ok (.value (jsOrEmptyArr (findMetaValue s.metas "cqlLookupKeys")))
  | names :: _ =>
    match names with
    | .arr xs => .ok (.derived ⟨s.children, s.metas ++ [[("cqlLookupKeys", .arr xs)]]⟩)
    | _ => .error "TypeError: Function.prototype.call invoked with undefined this"

/-- An object schema with no children and no metadata, `joi.object()`. -/
def emptyObjSchema : ObjectSchema := ⟨none, []⟩

/-- Line terminators recognised by the JavaScript regex multiline flag. -/
def isLineTerm (c : Char) : Bool :=
  c == '\n' || c == '\r' || c == '\u2028' || c == '\u2029'

/-- Split a character list at line terminators; with no terminator the
whole input is the single line. -/
def splitLines : List Char → List (List Char)
  | [] => [[]]
  | c :: cs =>
    if isLineTerm c then [] :: splitLines cs
    else
      match splitLines cs with
      | [] => [[c]]
      | l :: ls => (c :: l) :: ls

/-- A run of one to nineteen decimal digits and nothing else. -/
def digitsRun (l : List Char) : Bool :=
  !l.isEmpty && decide (l.length ≤ 19) && l.all (fun c => c.isDigit)

/-- One line against the body of `/^\-?\d\x7b1,19\x7d$/`: an optional ASCII
minus sign followed by one to nineteen decimal digits and nothing else. -/
def lineMatch (l : List Char) : Bool :=
  digitsRun (if l.head? = some '-' then l.tail else l)

/-- The `int64` string pattern test.  The source regex carries the
multiline flag, so the test succeeds when ANY line of the string matches
the anchored body. -/
def int64RegexTest (s : String) : Bool := (splitLines s.data).any lineMatch

/-- Digit list to its decimal value. -/
def digitsVal (l : List Char) : Nat := l.foldl (fun a c => 10 * a + (c.toNat - 48)) 0

/-- The joi number conversion applied to a string, composed with the later
safe-integer demand: joi v8 computes `parseFloat(value)` guarded by
`isFinite(value)`.  The model covers plain decimal integer numerals (an
optional ASCII sign followed by digits), the only numeral shape the claims
and fixtures exercise, and returns their exact value; every other string of
the claims (empty, thousands separators, unicode minus) converts to NaN in
JavaScript and to `none` here.  Fractional, exponent, hexadecimal and
whitespace-padded numerals are outside the model. -/
def jsPlainIntOfString (s : String) : Option Int :=
  let l := s.data
  let core := if l.head? = some '-' ∨ l.head? = some '+' then l.tail else l
  if !core.isEmpty && core.all (fun c => c.isDigit) then
    some (if l.head? = some '-' then -(digitsVal core : Int) else (digitsVal core : Int))
  else none

/-- `Number.isSafeInteger` on an integral value: magnitude at most
`2 ^ 53 - 1`.  The joi v8 `integer()` test demands exactly this. -/
def safeInt (n : Int) : Bool := decide (n.natAbs ≤ 2 ^ 53 - 1)

/-- `int64` from index.js: `joi.alternatives().try(joi.string().regex(r),
joi.number().integer())` with `r = /^\-?\d\x7b1,19\x7d$/m`.  The string
alternative rejects non-strings and the empty string (joi strings disallow
the empty string unless `allow` is called); the number alternative converts
strings per the joi number conversion and then demands a safe integer, and
rejects the infinities and every non-number. -/
def int64Accepts (v : JVal) : Bool :=
  (match v with
   | .str s => s != "" && int64RegexTest s
   | _ => false) ||
  (match v with
   | .int n => safeInt n
   | .str s =>
     (match jsPlainIntOfString s with
      | some n => safeInt n
      | none => false)
   | _ => false)

/-- `defaultUuid` from index.js.  `options` models `options.default` of the
caller-supplied options object (`none` when no options object was passed).
With a truthy default that is neither the canonical `version` nor `"empty"`
the canonical `version` is returned; with no options or a falsy default it
returns `undefined`. -/
def defaultUuid (options : Option JVal) (version : String) : JVal :=
  match options with
  | some (.str s) =>
    if s != "" then (if s == version || s == "empty" then .str s else .str version)
    else .undefVal
  | some d => if jsTruthy d then .str version else .undefVal
  | none => .undefVal

/-- `options && options.default`, the value recorded in the canonical
metadata record. -/
def jsOptDefault (options : Option JVal) : JVal :=
  match options with
  | none => .undefVal
  | some d => d

/-- `defaultify` from index.js registers a default handler only when
`options.default` is truthy; otherwise the validator is returned without a
default. -/
def registerIfTruthy (v : JVal) : Option JVal :=
  if jsTruthy v then some v else none

/-- A uuid-family validator: its metadata chain and the default specifier
registered on it, if any. -/
structure UuidValidator where
  metas : Metas
  defaultSpec : Option JVal

/-- `types.cql.uuid(options)` from index.js:
`joi.string().meta(\x7bcql: true, type: "uuid", default: options && options.default\x7d).guid()`
passed through `defaultify("uuid", validator, \x7bdefault: defaultUuid(options, "v4")\x7d)`. -/
def cqlUuid (options : Option JVal) : UuidValidator :=
  { metas := [[("cql", .boolean true), ("type", .str "uuid"), ("default", jsOptDefault options)]],
    defaultSpec := registerIfTruthy (defaultUuid options "v4") }

/-- `types.cql.timeuuid(options)` from index.js, identical to `uuid` with
type name `timeuuid` and canonical version `v1`. -/
def cqlTimeuuid (options : Option JVal) : UuidValidator :=
  { metas := [[("cql", .boolean true), ("type", .str "timeuuid"), ("default", jsOptDefault options)]],
    defaultSpec := registerIfTruthy (defaultUuid options "v1") }

/-- Outcome of the registered uuid default handler: the nil UUID literal,
or a freshly generated UUID of the recorded version
(`uuid[options.default]()`). -/
inductive UuidOutcome where
  | nilUuid
  | generated (version : JVal)

/-- The handler built by `defaults.uuid` in index.js: on operation
`create` it yields the nil UUID for the `empty` specifier and a generated
UUID of the recorded version otherwise; on every other operation it yields
`undefined`. -/
def resolveUuidDefaultFn (spec : JVal) (operation : String) : Option UuidOutcome :=
  if operation == "create" then
    match spec with
    | .str s => some (if s == "empty" then .nilUuid else .generated (.str s))
    | other => some (.generated other)
  else none

/-- Validating the empty object against a schema holding a uuid-family
field: the field is absent, so joi consults the registered default handler
with the contextual operation; `none` means the field stays undefined
(no handler registered, or the handler returned undefined). -/
def uuidFieldOnEmpty (b : UuidValidator) (operation : String) : Option UuidOutcome :=
  match b.defaultSpec with
  | none => none
  | some spec => resolveUuidDefaultFn spec operation

/-- JSON string escaping for one character.  The double quote, backslash
and the common control characters are escaped; other characters stand for
themselves (no input of the development contains a further control
character). -/
def escapeJsonChar (c : Char) : String :=
  if c == '"' then "\\\""
  else if c == '\\' then "\\\\"
  else if c == '\n' then "\\n"
  else if c == '\r' then "\\r"
  else if c == '\t' then "\\t"
  else String.singleton c

/-- A JSON string literal. -/
def quoteJson (s : String) : String :=
  "\"" ++ String.join (s.data.map escapeJsonChar) ++ "\""

mutual
/-- `JSON.stringify`: `none` models the undefined result on `undefined`
and on functions; the infinities serialise as `null`; inside arrays an
undefined element serialises as `null`; inside objects an undefined-valued
property is dropped. -/
def jsonStringify : JVal → Option String
  | .str s => some (quoteJson s)
  | .int n => some (toString n)
  | .inf => some "null"
  | .negInf => some "null"
  | .boolean b => some (if b then "true" else "false")
  | .null => some "null"
  | .undefVal => none
  | .fn _ => none
  | .arr es => some ("[" ++ String.intercalate "," (jsonStringifyElems es) ++ "]")
  | .obj fs => some ("\x7b" ++ String.intercalate "," (jsonStringifyFields fs) ++ "\x7d")

/-- Array elements under `JSON.stringify`. -/
def jsonStringifyElems : List JVal → List String
  | [] => []
  | e :: es =>
    (match jsonStringify e with
     | some s => s
     | none => "null") :: jsonStringifyElems es

/-- Object properties under `JSON.stringify`. -/
def jsonStringifyFields : List (String × JVal) → List String
  | [] => []
  | (k, v) :: fs =>
    (match jsonStringify v with
     | some s => [quoteJson k ++ ":" ++ s]
     | none => []) ++ jsonStringifyFields fs
end

/-- A joi validation result: an error (absent on success) and the
validated, possibly transformed, value. -/
structure JsResult where
  error : Option String
  value : JVal

/-- `types.cql.json()` without a shape, validated through the
`convertToJsonOnValidate` wrapper from index.js: the wrapped `joi.any()`
accepts every value unchanged, then the wrapper replaces `result.value`
with `JSON.stringify(result.value)` only when there is no error AND
`result.value` is truthy. -/
def jsonValidateAny (v : JVal) : JsResult :=
  let result : JsResult := ⟨none, v⟩
  if result.error.isNone && jsTruthy result.value then
    ⟨result.error,
     match jsonStringify result.value with
     | some s => .str s
     | none => .undefVal⟩
  else result

/-- The key-type argument of `types.cql.map`: callers pass either a type
name string (the test suites pass the empty string) or a full validator.
The source accepts either because it never reads the argument. -/
inductive MapKeyArg where
  | strName (s : String)
  | validator (m : Metas)

/-- `types.cql.map(keyType, valueType)` from index.js, reduced to the
metadata chain of the validator it builds.  `findMeta(valueType)` is read
first; when the value type carries no `cql` record the subsequent
`meta.type` access throws a TypeError.  The built annotation hardcodes the
first `mapType` component to the literal `"text"`; the `keyType` argument
is never read. -/
def mapBuilder (_keyType : MapKeyArg) (valueMetas : Metas) : Except String Metas :=
  match findMeta valueMetas "cql" with
  | none => .error "TypeError: cannot read property type of undefined"
  | some m =>
    .ok [[("cql", .boolean true), ("type", .str "map"),
          ("mapType", .arr [.str "text", jsGet m "type"]),
          ("serialize", .fn "convertMap of the value-type serialize"),
          ("deserialize", .fn "convertMap of the value-type deserialize")]]

/-- `types.cql.text()` as an element acceptance predicate:
`joi.string().allow("").strict(true)` accepts every string including the
empty one and, with no coercion, nothing else. -/
def textAccepts : JVal → Bool
  | .str _ => true
  | _ => false

mutual
/-- Structural deep equality on JavaScript values, the equality joi
`unique()` applies when looking for duplicate array entries. -/
def jvalEqb : JVal → JVal → Bool
  | .str a, .str b => a == b
  | .int a, .int b => a == b
  | .inf, .inf => true
  | .negInf, .negInf => true
  | .boolean a, .boolean b => a == b
  | .null, .null => true
  | .undefVal, .undefVal => true
  | .arr a, .arr b => jvalListEqb a b
  | .obj a, .obj b => jvalFieldsEqb a b
  | .fn a, .fn b => a == b
  | _, _ => false

/-- Deep equality on element lists. -/
def jvalListEqb : List JVal → List JVal → Bool
  | [], [] => true
  | a :: as, b :: bs => jvalEqb a b && jvalListEqb as bs
  | _, _ => false

/-- Deep equality on property lists. -/
def jvalFieldsEqb : List (String × JVal) → List (String × JVal) → Bool
  | [], [] => true
  | (k, v) :: as, (k2, v2) :: bs => k == k2 && jvalEqb v v2 && jvalFieldsEqb as bs
  | _, _ => false
end

/-- No two entries of the list are deep-equal (joi `unique()`). -/
def nodupB : List JVal → Bool
  | [] => true
  | x :: xs => !(xs.any (jvalEqb x)) && nodupB xs

/-- Is the value defined (not `undefined`)? -/
def definedB : JVal → Bool
  | .undefVal => false
  | _ => true

/-- The full-replacement collection shape:
`joi.array().sparse(false).items(type)`, with `unique()` added for sets.
Only arrays are accepted; `sparse(false)` rejects undefined entries; every
entry must satisfy the element validator. -/
def arrayOk (elem : JVal → Bool) (uniq : Bool) : JVal → Bool
  | .arr xs => xs.all definedB && xs.all elem && (!uniq || nodupB xs)
  | _ => false

/-- Presence of a peer for the joi `or()` test: the key is listed with a
defined value. -/
def hasDefinedKey (fs : List (String × JVal)) (k : String) : Bool :=
  fs.any (fun kv => kv.1 == k && definedB kv.2)

/-- The `index` descriptor entry of a list:
`joi.object().pattern(/^\d+$/, type)` accepts an object whose every key is
a non-empty digit string (keys not matching the pattern are unknown and
rejected) and whose every value satisfies the element validator. -/
def indexOk (elem : JVal → Bool) : JVal → Bool
  | .obj fs => fs.all (fun kv => (!kv.1.isEmpty && kv.1.data.all (fun c => c.isDigit)) && elem kv.2)
  | _ => false

/-- `types.cql.set(type)` validation from index.js:
`joi.alternatives().try(set, joi.object().keys(\x7badd: set, remove: set\x7d)
.or("add", "remove").unknown(false))` where `set` is the unique
full-replacement array.  In the descriptor branch every listed key must be
`add` or `remove` (`unknown(false)`), at least one of the two must be
present with a defined value (`or`), and each defined entry must pass the
set array validator; a key bound to `undefined` is absent for joi and its
child validation passes vacuously. -/
def setValidate (elem : JVal → Bool) (v : JVal) : Bool :=
  arrayOk elem true v ||
  (match v with
   | .obj fs =>
     fs.all (fun kv => kv.1 == "add" || kv.1 == "remove") &&
     (hasDefinedKey fs "add" || hasDefinedKey fs "remove") &&
     fs.all (fun kv => !definedB kv.2 || arrayOk elem true kv.2)
   | _ => false)

/-- `types.cql.list(type)` validation from index.js: the alternatives of
the plain full-replacement array (duplicates allowed) and the descriptor
object with recognised keys `prepend`, `append`, `remove` (arrays of the
element type) and `index` (digit-keyed object of elements), at least one
present, no unknown key. -/
def listValidate (elem : JVal → Bool) (v : JVal) : Bool :=
  arrayOk elem false v ||
  (match v with
   | .obj fs =>
     fs.all (fun kv => kv.1 == "prepend" || kv.1 == "append" || kv.1 == "remove" || kv.1 == "index") &&
     (hasDefinedKey fs "prepend" || hasDefinedKey fs "append" ||
      hasDefinedKey fs "remove" || hasDefinedKey fs "index") &&
     fs.all (fun kv => !definedB kv.2 ||
       (if kv.1 == "index" then indexOk elem kv.2 else arrayOk elem false kv.2))
   | _ => false)

/-- Does the property list carry a key recognised by the set descriptor? -/
def setRecognizedB (fs : List (String × JVal)) : Bool :=
  fs.any (fun kv => kv.1 == "add" || kv.1 == "remove")

/-- Does the property list carry a key the set descriptor does not
recognise? -/
def setUnknownB (fs : List (String × JVal)) : Bool :=
  fs.any (fun kv => !(kv.1 == "add" || kv.1 == "remove"))

/-- Does the property list carry a key recognised by the list
descriptor? -/
def listRecognizedB (fs : List (String × JVal)) : Bool :=
  fs.any (fun kv => kv.1 == "prepend" || kv.1 == "append" || kv.1 == "remove" || kv.1 == "index")

/-- Does the property list carry a key the list descriptor does not
recognise? -/
def listUnknownB (fs : List (String × JVal)) : Bool :=
  fs.any (fun kv => !(kv.1 == "prepend" || kv.1 == "append" || kv.1 == "remove" || kv.1 == "index"))

/-- The metadata chain of `types.cql.text()`. -/
def textMetas : Metas := [[("cql", .boolean true), ("type", .str "text")]]

/-- The metadata chain of `types.cql.int()`. -/
def intMetas : Metas := [[("cql", .boolean true), ("type", .str "int")]]

/-- The metadata chain built by `someField` of the metadata-merge unit
test: `cql.int().meta(\x7bsome: "metadata"\x7d).meta(\x7bmore: "metadata"\x7d)
.meta(\x7bsome: "overwritten"\x7d)`. -/
def someFieldMetas : Metas :=
  intMetas ++ [[("some", .str "metadata")], [("more", .str "metadata")], [("some", .str "overwritten")]]

/-- The canonical metadata record of `types.cql.int()`. -/
def intCqlRecord : MetaObj := [("cql", .boolean true), ("type", .str "int")]

/-- Helper: appending a one-record chain that carries the key makes that
record the `findMeta` result, whatever the existing chain holds. -/
theorem findMetaValue_append_single (m : Metas) (k : String) (w : JVal) :
    findMetaValue (m ++ [[(k, w)]]) k = w := by
  have hk : hasKey [(k, w)] k = true := by simp [hasKey]
  unfold findMetaValue findMeta
  rw [List.filter_append]
  simp [hk, jsGet]

/-- Helper: a character list free of line terminators is its own single
line. -/
theorem splitLines_eq_single (l : List Char) (h : ∀ c ∈ l, isLineTerm c = false) :
    splitLines l = [l] := by
  induction l with
  | nil => rfl
  | cons c cs ih =>
    have hc : isLineTerm c = false := h c (by simp)
    have ihr : splitLines cs = [cs] := ih (fun d hd => h d (by simp [hd]))
    simp [splitLines, hc, ihr]

/-- Helper: decimal digit folding only grows the accumulator. -/
theorem digitsVal_foldl_ge (l : List Char) (a : Nat) :
    a * 10 ^ l.length ≤ l.foldl (fun a c => 10 * a + (c.toNat - 48)) a := by
  induction l generalizing a with
  | nil => simp
  | cons c cs ih =>
    have step : a * 10 ^ (c :: cs).length ≤ (10 * a + (c.toNat - 48)) * 10 ^ cs.length := by
      have : a * 10 ^ (c :: cs).length = (10 * a) * 10 ^ cs.length := by
        simp [List.length_cons, pow_succ]
        ring
      rw [this]
      exact Nat.mul_le_mul_right _ (by omega)
    exact le_trans step (ih (10 * a + (c.toNat - 48)))

/-- Helper: a digit list with a non-zero leading digit of length `n + 1`
denotes at least `10 ^ n`. -/
theorem digitsVal_lower (d : Char) (rest : List Char)
    (hd : d.isDigit = true) (hd0 : d ≠ '0') :
    10 ^ rest.length ≤ digitsVal (d :: rest) := by
  have h1 : 1 ≤ d.toNat - 48 := by
    have hlow : 48 ≤ d.toNat := by
      simp [Char.isDigit] at hd
      exact hd.1
    have hne : d.toNat ≠ 48 := by
      intro h
      apply hd0
      have hv : d.val.toNat = (Char.val (Char.ofNat 48)).toNat := h
      exact Char.ext (UInt32.toNat.inj hv)
    omega
  have hfold := digitsVal_foldl_ge rest (d.toNat - 48)
  have hstep : digitsVal (d :: rest) =
      List.foldl (fun a c => 10 * a + (c.toNat - 48)) (d.toNat - 48) rest := by
    simp [digitsVal]
  rw [hstep]
  calc 10 ^ rest.length = 1 * 10 ^ rest.length := by ring
    _ ≤ (d.toNat - 48) * 10 ^ rest.length := Nat.mul_le_mul_right _ h1
    _ ≤ _ := hfold

/-- Claim C1.  The claim states that `toCql()` merges every key of every
metadata record of the chain into the last `cql`-bearing record, later
values overwriting earlier ones.  Evaluating the embedded source on the
`someField` chain of the metadata-merge unit test shows the divergence:
`findMeta` returns the last `cql`-bearing record unchanged, so the chained
`some`/`more` keys are absent from the export, while the unit test expects
`some = "overwritten"` and `more = "metadata"` in it. -/
theorem toCql_meta_chain_not_merged :
    anyToCql someFieldMetas = some intCqlRecord ∧
    hasKey intCqlRecord "some" = false ∧
    hasKey intCqlRecord "more" = false ∧
    jsGet intCqlRecord "more" = JVal.undefVal := by
  refine ⟨rfl, rfl, rfl, rfl⟩

/-- Claim C2.  The claim states that `uuid()`/`timeuuid()` with no options
auto-register the version-appropriate default, so validating the empty
object under operation `create` yields a generated UUID.  Evaluating the
embedded source: with no options `defaultUuid` returns undefined, so
`defaultify` registers no default at all and the field stays undefined
under `create` as well as `update`, for both builders. -/
theorem uuid_no_options_registers_no_default :
    (cqlUuid none).defaultSpec = none ∧
    uuidFieldOnEmpty (cqlUuid none) "create" = none ∧
    uuidFieldOnEmpty (cqlUuid none) "update" = none ∧
    (cqlTimeuuid none).defaultSpec = none ∧
    uuidFieldOnEmpty (cqlTimeuuid none) "create" = none ∧
    uuidFieldOnEmpty (cqlTimeuuid none) "update" = none := by
  refine ⟨rfl, rfl, rfl, rfl, rfl, rfl⟩

/-- Claim C3.  The claim states that a successful validation of a
JSON-typed field replaces the value by its JSON encoding regardless of
shape, including the falsy values of the unit test (the empty string,
false, null).  Evaluating the embedded source: the wrapper only
stringifies when `result.value` is truthy, so the falsy values pass
through unchanged, diverging from `JSON.stringify` of the value, while a
truthy object is stringified as the claim expects. -/
theorem json_falsy_value_not_stringified :
    jsonValidateAny (JVal.str "") = ⟨none, JVal.str ""⟩ ∧
    jsonStringify (JVal.str "") = some "\"\"" ∧
    JVal.str "" ≠ JVal.str "\"\"" ∧
    jsonValidateAny (JVal.boolean false) = ⟨none, JVal.boolean false⟩ ∧
    jsonStringify (JVal.boolean false) = some "false" ∧
    jsonValidateAny JVal.null = ⟨none, JVal.null⟩ ∧
    jsonStringify JVal.null = some "null" ∧
    jsonValidateAny (JVal.obj [("home", JVal.str "415-678-9087")]) =
      ⟨none, JVal.str "\x7b\"home\":\"415-678-9087\"\x7d"⟩ := by
  refine ⟨rfl, rfl, ?_, rfl, rfl, rfl, rfl, rfl⟩
  intro h
  injection h with h2
  exact absurd h2 (by decide)

/-- Claim C6.  The claim states that the variadic form
`lookupKeys("a", "b", "c")` succeeds and collapses the arguments into a
sequence.  Evaluating the embedded source: the module-scope binding
`var slice = Array.prototype.slice.call` denotes the unbound
`Function.prototype.call`, so the variadic branch throws a TypeError; the
single-array form and the getter behave as described. -/
theorem lookupKeys_variadic_throws :
    lookupKeysCall emptyObjSchema [JVal.str "a", JVal.str "b", JVal.str "c"] =
      Except.error "TypeError: Function.prototype.call invoked with undefined this" ∧
    lookupKeysCall emptyObjSchema [JVal.arr [JVal.str "a", JVal.str "b", JVal.str "c"]] =
      Except.ok (.derived ⟨none, [[("cqlLookupKeys", JVal.arr [JVal.str "a", JVal.str "b", JVal.str "c"])]]⟩) ∧
    lookupKeysCall ⟨none, [[("cqlLookupKeys", JVal.arr [JVal.str "a", JVal.str "b", JVal.str "c"])]]⟩ [] =
      Except.ok (.value (JVal.arr [JVal.str "a", JVal.str "b", JVal.str "c"])) ∧
    lookupKeysCall emptyObjSchema [] = Except.ok (.value (JVal.arr [])) := by
  refine ⟨rfl, rfl, rfl, rfl⟩

/-- Claim C4, counterexample.  The claim states that the first `mapType`
component records the name of the key type the caller supplied.  Calling
`map` with the `uuid()` validator as key type (canonical type name
`"uuid"`) still yields `"text"` as the first component, refuting the
claim at this input. -/
theorem mapType_ignores_keyType_cx :
    findMetaValue (cqlUuid none).metas "type" = JVal.str "uuid" ∧
    mapBuilder (MapKeyArg.validator (cqlUuid none).metas) textMetas =
      Except.ok [[("cql", JVal.boolean true), ("type", JVal.str "map"),
        ("mapType", JVal.arr [JVal.str "text", JVal.str "text"]),
        ("serialize", JVal.fn "convertMap of the value-type serialize"),
        ("deserialize", JVal.fn "convertMap of the value-type deserialize")]] ∧
    JVal.str "text" ≠ JVal.str "uuid" := by
  refine ⟨rfl, rfl, ?_⟩
  intro h
  injection h with h2
  exact absurd h2 (by decide)

/-- Claim C5, counterexample.  The claim states that a numeral string
passes `bigint`/`counter` validation only if its magnitude is at most
`2 ^ 63 - 1`, and in particular that `"9999999999999999999"` is rejected.
The embedded source accepts it: the 19-digit string matches the regex
alternative, although its value exceeds the 64-bit signed bound. -/
theorem int64_accepts_over_bound_string_cx :
    int64Accepts (JVal.str "9999999999999999999") = true ∧
    ((9999999999999999999 : Int) > 2 ^ 63 - 1) := by
  exact ⟨rfl, by decide⟩

/-- Claim C7, counterexample.  The claim states that the getter returns
the last-assigned value verbatim for any assigned string or sequence.
Assigning the empty string (a string) and reading back yields the empty
sequence instead of the empty string, because the getter applies the
JavaScript `|| []` fallback to the stored falsy value. -/
theorem partitionKey_empty_string_cx :
    pkGet (pkSet emptyObjSchema (JVal.str "")) = JVal.arr [] ∧
    JVal.arr [] ≠ JVal.str "" := by
  refine ⟨rfl, ?_⟩
  intro h
  exact JVal.noConfusion h

/-- Claim C9, counterexample.  The claim states that a declared field
whose metadata lacks the `cql` key is omitted from the `toCql()` mapping
entirely, its name not appearing as a key of the result.  Exporting a
schema with a plain (non-CQL) field `extra` shows the field name IS a key
of the result, bound to `undefined`: the reduce assigns
`memo[child.key] = findMeta(child.schema)` unconditionally. -/
theorem objToCql_keeps_noncql_field_key_cx :
    objToCql ⟨some [("name", textMetas), ("extra", [])], []⟩ =
      CqlExport.mapping [("name", some [("cql", JVal.boolean true), ("type", JVal.str "text")]),
        ("extra", none)] ∧
    exportKeys (objToCql ⟨some [("name", textMetas), ("extra", [])], []⟩) = ["name", "extra"] ∧
    exportLookup (objToCql ⟨some [("name", textMetas), ("extra", [])], []⟩) "extra" = some none := by
  refine ⟨rfl, rfl, rfl⟩

/-- Claim C7, amended.  For every object schema, `partitionKey()` and
`clusteringKey()` with no argument return the last-assigned TRUTHY value
verbatim (string or sequence, no shape normalization), the empty sequence
when never assigned, and assigning `null` (or any falsy value, such as the
empty string of the counterexample) resets the getter to the empty
sequence; each setter leaves the original schema value untouched and
returns a derived schema whose metadata chain extends the original by one
record. -/
theorem partition_clustering_key_accessors (s : ObjectSchema) (u v : JVal)
    (hv : jsTruthy v = true) :
    pkGet (pkSet s v) = v ∧
    ckGet (ckSet s v) = v ∧
    pkGet (pkSet (pkSet s u) v) = v ∧
    pkGet (pkSet s JVal.null) = JVal.arr [] ∧
    pkGet (pkSet (pkSet s v) JVal.null) = JVal.arr [] ∧
    ckGet (ckSet s JVal.null) = JVal.arr [] ∧
    pkGet emptyObjSchema = JVal.arr [] ∧
    ckGet emptyObjSchema = JVal.arr [] ∧
    (pkSet s v).metas = s.metas ++ [[("cqlPartitionKey", v)]] ∧
    (ckSet s v).metas = s.metas ++ [[("cqlClusteringKey", v)]] := by
  refine ⟨?_, ?_, ?_, ?_, ?_, ?_, rfl, rfl, rfl, rfl⟩
  · simp only [pkGet, pkSet]
    rw [findMetaValue_append_single]
    simp [jsOrEmptyArr, hv]
  · simp only [ckGet, ckSet]
    rw [findMetaValue_append_single]
    simp [jsOrEmptyArr, hv]
  · simp only [pkGet, pkSet]
    rw [findMetaValue_append_single]
    simp [jsOrEmptyArr, hv]
  · simp only [pkGet, pkSet]
    rw [findMetaValue_append_single]
    simp [jsOrEmptyArr, jsTruthy]
  · simp only [pkGet, pkSet]
    rw [findMetaValue_append_single]
    simp [jsOrEmptyArr, jsTruthy]
  · simp only [ckGet, ckSet]
    rw [findMetaValue_append_single]
    simp [jsOrEmptyArr, jsTruthy]

/-- Claim C7, witness: the amended accessor behaviour at the concrete
assignments of the unit tests. -/
theorem partition_clustering_key_accessors_witness :
    pkGet (pkSet emptyObjSchema (JVal.arr [JVal.str "a", JVal.str "b"])) =
      JVal.arr [JVal.str "a", JVal.str "b"] ∧
    pkGet (pkSet (pkSet emptyObjSchema (JVal.str "orion_id")) (JVal.str "website_id")) =
      JVal.str "website_id" ∧
    pkGet (pkSet (pkSet emptyObjSchema (JVal.str "website_id")) JVal.null) = JVal.arr [] := by
  have h1 := partition_clustering_key_accessors emptyObjSchema (JVal.str "x")
    (JVal.arr [JVal.str "a", JVal.str "b"]) (by decide)
  have h2 := partition_clustering_key_accessors emptyObjSchema (JVal.str "orion_id")
    (JVal.str "website_id") (by decide)
  exact ⟨h1.1, h2.2.2.1, h2.2.2.2.2.1⟩

/-- Helper: looking a declared field up in the exported child list finds
the entry built from that field, given unique field names. -/
theorem find?_exported_child (cs : List (String × Metas)) (k : String) (msk : Metas)
    (hnd : (cs.map Prod.fst).Nodup) (hmem : (k, msk) ∈ cs) :
    (cs.map (fun kv => (kv.1, findMeta kv.2 "cql"))).find? (fun kv => kv.1 == k) =
      some (k, findMeta msk "cql") := by
  induction cs with
  | nil => cases hmem
  | cons hd tl ih =>
    obtain ⟨k', m'⟩ := hd
    rw [List.map_cons]
    rcases List.mem_cons.mp hmem with heq | hmem'
    · cases heq
      exact List.find?_cons_of_pos _ (by simp)
    · have hne : k' ≠ k := by
        intro h
        subst h
        have hmemk : k' ∈ tl.map Prod.fst := List.mem_map.mpr ⟨(k', msk), hmem', rfl⟩
        exact (List.nodup_cons.mp hnd).1 hmemk
      rw [List.find?_cons_of_neg _ (by simp [hne])]
      exact ih (List.nodup_cons.mp hnd).2 hmem'

/-- Claim C9, amended.  For every object schema, `toCql()` returns a
mapping over ALL declared child fields: every declared field name appears
as a key of the result (also when its metadata lacks the `cql`
discriminant, in which case it is bound to `undefined` rather than
omitted), and the entry of each field is exactly the `findMeta` canonical
record of that field. -/
theorem objToCql_maps_every_child (cs : List (String × Metas)) (ms : Metas)
    (k : String) (msk : Metas)
    (hnd : (cs.map Prod.fst).Nodup) (hmem : (k, msk) ∈ cs) :
    k ∈ exportKeys (objToCql ⟨some cs, ms⟩) ∧
    exportLookup (objToCql ⟨some cs, ms⟩) k = some (findMeta msk "cql") := by
  constructor
  · simp only [objToCql, exportKeys, List.map_map]
    exact List.mem_map.mpr ⟨(k, msk), hmem, rfl⟩
  · simp only [objToCql, exportLookup]
    rw [find?_exported_child cs k msk hnd hmem]

/-- Claim C9, witness: the amended export behaviour on the two-field demo
schema of the counterexample, one CQL field and one plain field. -/
theorem objToCql_maps_every_child_witness :
    ("extra" ∈ exportKeys (objToCql ⟨some [("name", textMetas), ("extra", [])], []⟩) ∧
     exportLookup (objToCql ⟨some [("name", textMetas), ("extra", [])], []⟩) "extra" =
       some (findMeta [] "cql")) ∧
    ("name" ∈ exportKeys (objToCql ⟨some [("name", textMetas), ("extra", [])], []⟩) ∧
     exportLookup (objToCql ⟨some [("name", textMetas), ("extra", [])], []⟩) "name" =
       some (findMeta textMetas "cql")) := by
  constructor
  · exact objToCql_maps_every_child [("name", textMetas), ("extra", [])] [] "extra" []
      (by decide) (by simp)
  · exact objToCql_maps_every_child [("name", textMetas), ("extra", [])] [] "name" textMetas
      (by decide) (by simp)

/-- Claim C4, amended.  For every key-type argument and every value-type
validator carrying a canonical record, `map(keyType, valueType)` builds a
single annotation whose `mapType` is the pair of the LITERAL `"text"`
(the key-type argument is ignored) and the canonical type of the value
validator, and `toCql()` on the built validator returns that
annotation. -/
theorem mapType_records_text_and_value_type (kt : MapKeyArg) (vm : Metas) (m : MetaObj)
    (h : findMeta vm "cql" = some m) :
    ∃ ann : MetaObj, mapBuilder kt vm = Except.ok [ann] ∧
      anyToCql [ann] = some ann ∧
      jsGet ann "mapType" = JVal.arr [JVal.str "text", jsGet m "type"] ∧
      jsGet ann "type" = JVal.str "map" := by
  refine ⟨[("cql", JVal.boolean true), ("type", JVal.str "map"),
    ("mapType", JVal.arr [JVal.str "text", jsGet m "type"]),
    ("serialize", JVal.fn "convertMap of the value-type serialize"),
    ("deserialize", JVal.fn "convertMap of the value-type deserialize")], ?_, rfl, rfl, rfl⟩
  simp [mapBuilder, h]

/-- Claim C4, witness: `map` applied with the empty-string key type of the
unit tests and the `text()` value type. -/
theorem mapType_records_text_and_value_type_witness :
    ∃ ann : MetaObj, mapBuilder (MapKeyArg.strName "") textMetas = Except.ok [ann] ∧
      anyToCql [ann] = some ann ∧
      jsGet ann "mapType" = JVal.arr [JVal.str "text", JVal.str "text"] ∧
      jsGet ann "type" = JVal.str "map" :=
  mapType_records_text_and_value_type (MapKeyArg.strName "") textMetas
    [("cql", JVal.boolean true), ("type", JVal.str "text")] rfl

/-- Claim C10, counterexample.  The claim states that EVERY default
option string that is neither `"empty"` nor the canonical version is
silently replaced by the canonical version.  The empty string is such a
string, yet there the `options && options.default` truthiness gate of
`defaultUuid` is falsy, so no default is registered at all
(`defaultSpec = none`) and no canonical-version UUID is generated on
`create`, refuting the claim at this input. -/
theorem uuid_empty_string_default_cx :
    ("" : String) ≠ "empty" ∧
    ("" : String) ≠ "v4" ∧
    ("" : String) ≠ "v1" ∧
    (cqlUuid (some (JVal.str ""))).defaultSpec = none ∧
    uuidFieldOnEmpty (cqlUuid (some (JVal.str ""))) "create" = none ∧
    (cqlTimeuuid (some (JVal.str ""))).defaultSpec = none ∧
    uuidFieldOnEmpty (cqlTimeuuid (some (JVal.str ""))) "create" = none := by
  refine ⟨by decide, by decide, by decide, rfl, rfl, rfl, rfl⟩

/-- Claim C10, amended.  When `uuid()` or `timeuuid()` receives a TRUTHY
(non-empty) default option string that is neither `"empty"` nor the
canonical version of the builder, the unsupported option is silently
replaced: the registered default generates the canonical version (`v4`
for `uuid`, `v1` for `timeuuid`) on a `create` operation, while the
canonical metadata record still records the original caller string under
`default`; with the falsy empty-string option no default is registered at
all. -/
theorem uuid_unsupported_default_replaced (s t : String)
    (hs1 : s ≠ "") (hs2 : s ≠ "empty") (hs3 : s ≠ "v4")
    (ht1 : t ≠ "") (ht2 : t ≠ "empty") (ht3 : t ≠ "v1") :
    (cqlUuid (some (JVal.str s))).defaultSpec = some (JVal.str "v4") ∧
    uuidFieldOnEmpty (cqlUuid (some (JVal.str s))) "create" =
      some (UuidOutcome.generated (JVal.str "v4")) ∧
    uuidFieldOnEmpty (cqlUuid (some (JVal.str s))) "update" = none ∧
    findMetaValue (cqlUuid (some (JVal.str s))).metas "default" = JVal.str s ∧
    (cqlTimeuuid (some (JVal.str t))).defaultSpec = some (JVal.str "v1") ∧
    uuidFieldOnEmpty (cqlTimeuuid (some (JVal.str t))) "create" =
      some (UuidOutcome.generated (JVal.str "v1")) ∧
    findMetaValue (cqlTimeuuid (some (JVal.str t))).metas "default" = JVal.str t ∧
    (cqlUuid (some (JVal.str ""))).defaultSpec = none ∧
    (cqlTimeuuid (some (JVal.str ""))).defaultSpec = none := by
  have hs1b : (s != "") = true := bne_iff_ne.mpr hs1
  have hs2b : (s == "empty") = false := beq_eq_false_iff_ne.mpr hs2
  have hs3b : (s == "v4") = false := beq_eq_false_iff_ne.mpr hs3
  have ht1b : (t != "") = true := bne_iff_ne.mpr ht1
  have ht2b : (t == "empty") = false := beq_eq_false_iff_ne.mpr ht2
  have ht3b : (t == "v1") = false := beq_eq_false_iff_ne.mpr ht3
  refine ⟨?_, ?_, ?_, rfl, ?_, ?_, rfl, rfl, rfl⟩
  · simp [cqlUuid, defaultUuid, registerIfTruthy, jsTruthy, hs1b, hs2b, hs3b]
  · simp [uuidFieldOnEmpty, cqlUuid, defaultUuid, registerIfTruthy, jsTruthy,
      resolveUuidDefaultFn, hs1b, hs2b, hs3b]
  · simp [uuidFieldOnEmpty, cqlUuid, defaultUuid, registerIfTruthy, jsTruthy,
      resolveUuidDefaultFn, hs1b, hs2b, hs3b]
  · simp [cqlTimeuuid, defaultUuid, registerIfTruthy, jsTruthy, ht1b, ht2b, ht3b]
  · simp [uuidFieldOnEmpty, cqlTimeuuid, defaultUuid, registerIfTruthy, jsTruthy,
      resolveUuidDefaultFn, ht1b, ht2b, ht3b]

/-- Claim C10, witness: `uuid` asked for a `v1` default registers a
`v4`-generating default, and `timeuuid` asked for a `v4` default registers
a `v1`-generating default, while both records keep the original option
string. -/
theorem uuid_unsupported_default_replaced_witness :
    (cqlUuid (some (JVal.str "v1"))).defaultSpec = some (JVal.str "v4") ∧
    uuidFieldOnEmpty (cqlUuid (some (JVal.str "v1"))) "create" =
      some (UuidOutcome.generated (JVal.str "v4")) ∧
    findMetaValue (cqlUuid (some (JVal.str "v1"))).metas "default" = JVal.str "v1" ∧
    (cqlTimeuuid (some (JVal.str "v4"))).defaultSpec = some (JVal.str "v1") ∧
    uuidFieldOnEmpty (cqlTimeuuid (some (JVal.str "v4"))) "create" =
      some (UuidOutcome.generated (JVal.str "v1")) ∧
    findMetaValue (cqlTimeuuid (some (JVal.str "v4"))).metas "default" = JVal.str "v4" := by
  have h := uuid_unsupported_default_replaced "v1" "v4"
    (by decide) (by decide) (by decide) (by decide) (by decide) (by decide)
  exact ⟨h.1, h.2.1, h.2.2.2.1, h.2.2.2.2.1, h.2.2.2.2.2.1, h.2.2.2.2.2.2.1⟩

/-- Helper: a decimal digit is not a regex line terminator. -/
theorem isLineTerm_of_digit (c : Char) (h : c.isDigit = true) : isLineTerm c = false := by
  simp [Char.isDigit] at h
  have h10 : c ≠ '\n' := by intro hc; subst hc; exact absurd h.1 (by decide)
  have h13 : c ≠ '\r' := by intro hc; subst hc; exact absurd h.1 (by decide)
  have h28 : c ≠ '\u2028' := by intro hc; subst hc; exact absurd h.2 (by decide)
  have h29 : c ≠ '\u2029' := by intro hc; subst hc; exact absurd h.2 (by decide)
  simp [isLineTerm, h10, h13, h28, h29]

/-- Helper: a decimal digit is neither the minus nor the plus sign. -/
theorem digit_ne_sign (c : Char) (h : c.isDigit = true) : c ≠ '-' ∧ c ≠ '+' := by
  simp [Char.isDigit] at h
  constructor
  · intro hc; subst hc; exact absurd h.1 (by decide)
  · intro hc; subst hc; exact absurd h.1 (by decide)

/-- Helper: `int64Accepts` on a string value, unfolded. -/
theorem int64Accepts_str (s : String) :
    int64Accepts (JVal.str s) =
      ((s != "" && int64RegexTest s) ||
       (match jsPlainIntOfString s with
        | some n => safeInt n
        | none => false)) := rfl

/-- Helper: `int64Accepts` on an unsigned normalized numeral equals the
19-digit length test. -/
theorem int64Accepts_digits (d : Char) (rest : List Char)
    (hd : d.isDigit = true) (hd0 : d ≠ '0') (hrest : ∀ c ∈ rest, c.isDigit = true) :
    int64Accepts (JVal.str (String.mk (d :: rest))) = decide (rest.length + 1 ≤ 19) := by
  obtain ⟨hdm, hdp⟩ := digit_ne_sign d hd
  have hterm : ∀ c ∈ d :: rest, isLineTerm c = false := by
    intro c hc
    rcases List.mem_cons.mp hc with rfl | hc'
    · exact isLineTerm_of_digit c hd
    · exact isLineTerm_of_digit c (hrest c hc')
  have hdigits : (d :: rest).all (fun c => c.isDigit) = true := by
    simp only [List.all_cons, hd, Bool.true_and, List.all_eq_true]
    exact hrest
  have hne : (String.mk (d :: rest) != "") = true := by
    refine bne_iff_ne.mpr ?_
    intro h
    have := congrArg String.data h
    simp at this
  have hregex : int64RegexTest (String.mk (d :: rest)) = digitsRun (d :: rest) := by
    unfold int64RegexTest
    have hdata : (String.mk (d :: rest)).data = d :: rest := rfl
    rw [hdata, splitLines_eq_single _ hterm]
    simp only [List.any_cons, List.any_nil, Bool.or_false]
    simp [lineMatch, hdm]
  have hj : jsPlainIntOfString (String.mk (d :: rest)) = some ((digitsVal (d :: rest) : Int)) := by
    unfold jsPlainIntOfString
    simp [hdm, hdp, hdigits]
  rw [int64Accepts_str, hregex, hj]
  by_cases hlen : rest.length + 1 ≤ 19
  · simp [digitsRun, hne, hdigits, hlen, List.length_cons]
  · have h19 : 19 ≤ rest.length := by omega
    have hlow : 10 ^ 19 ≤ digitsVal (d :: rest) :=
      le_trans (Nat.pow_le_pow_right (by norm_num) h19) (digitsVal_lower d rest hd hd0)
    have hsafe : safeInt ((digitsVal (d :: rest) : Int)) = false := by
      simp only [safeInt, Int.natAbs_ofNat, decide_eq_false_iff_not, not_le]
      calc 2 ^ 53 - 1 < 10 ^ 19 := by norm_num
        _ ≤ digitsVal (d :: rest) := hlow
    simp [digitsRun, hsafe, hlen, List.length_cons]

/-- Helper: `int64Accepts` on a minus-signed normalized numeral equals the
19-digit length test. -/
theorem int64Accepts_neg_digits (d : Char) (rest : List Char)
    (hd : d.isDigit = true) (hd0 : d ≠ '0') (hrest : ∀ c ∈ rest, c.isDigit = true) :
    int64Accepts (JVal.str (String.mk ('-' :: d :: rest))) = decide (rest.length + 1 ≤ 19) := by
  have hterm : ∀ c ∈ '-' :: d :: rest, isLineTerm c = false := by
    intro c hc
    rcases List.mem_cons.mp hc with rfl | hc'
    · decide
    · rcases List.mem_cons.mp hc' with rfl | hc''
      · exact isLineTerm_of_digit c hd
      · exact isLineTerm_of_digit c (hrest c hc'')
  have hdigits : (d :: rest).all (fun c => c.isDigit) = true := by
    simp only [List.all_cons, hd, Bool.true_and, List.all_eq_true]
    exact hrest
  have hne : (String.mk ('-' :: d :: rest) != "") = true := by
    refine bne_iff_ne.mpr ?_
    intro h
    have := congrArg String.data h
    simp at this
  have hregex : int64RegexTest (String.mk ('-' :: d :: rest)) = digitsRun (d :: rest) := by
    unfold int64RegexTest
    have hdata : (String.mk ('-' :: d :: rest)).data = '-' :: d :: rest := rfl
    rw [hdata, splitLines_eq_single _ hterm]
    simp only [List.any_cons, List.any_nil, Bool.or_false]
    simp [lineMatch]
  have hj : jsPlainIntOfString (String.mk ('-' :: d :: rest)) =
      some (-(digitsVal (d :: rest) : Int)) := by
    unfold jsPlainIntOfString
    simp [hdigits]
  rw [int64Accepts_str, hregex, hj]
  by_cases hlen : rest.length + 1 ≤ 19
  · simp [digitsRun, hne, hdigits, hlen, List.length_cons]
  · have h19 : 19 ≤ rest.length := by omega
    have hlow : 10 ^ 19 ≤ digitsVal (d :: rest) :=
      le_trans (Nat.pow_le_pow_right (by norm_num) h19) (digitsVal_lower d rest hd hd0)
    have hsafe : safeInt (-(digitsVal (d :: rest) : Int)) = false := by
      simp only [safeInt, Int.natAbs_neg, Int.natAbs_ofNat, decide_eq_false_iff_not, not_le]
      calc 2 ^ 53 - 1 < 10 ^ 19 := by norm_num
        _ ≤ digitsVal (d :: rest) := hlow
    simp [digitsRun, hsafe, hlen, List.length_cons]

/-- Claim C5, amended.  For `bigint`/`counter`: a normalized decimal
numeral string (optional single ASCII minus, then digits with no leading
zero) passes validation IF AND ONLY IF it has at most nineteen digits —
the regex alternative enforces no magnitude bound below `10 ^ 19 - 1`, so
`"9999999999999999999"` is accepted although it exceeds `2 ^ 63 - 1`.
Infinities, thousands-separated strings, unicode-minus strings, the empty
string and numerals of twenty or more digits are rejected, and an accepted
number value is a JavaScript safe integer (magnitude at most
`2 ^ 53 - 1`). -/
theorem int64_numeral_and_reject_law (neg : Bool) (d : Char) (rest : List Char)
    (hd : d.isDigit = true) (hd0 : d ≠ '0') (hrest : ∀ c ∈ rest, c.isDigit = true) :
    (int64Accepts (JVal.str (String.mk (if neg then '-' :: d :: rest else d :: rest))) = true
      ↔ rest.length + 1 ≤ 19) ∧
    int64Accepts (JVal.str "") = false ∧
    int64Accepts JVal.inf = false ∧
    int64Accepts JVal.negInf = false ∧
    int64Accepts (JVal.str "−9,223,372,036,854,775,808") = false ∧
    int64Accepts (JVal.str "−9223372036854775808") = false ∧
    int64Accepts (JVal.str "-92233720368547758080") = false ∧
    (∀ n : Int, int64Accepts (JVal.int n) = true ↔ n.natAbs ≤ 2 ^ 53 - 1) := by
  refine ⟨?_, rfl, rfl, rfl, rfl, rfl, rfl, ?_⟩
  · cases neg
    · simp only [Bool.false_eq_true, if_false]
      rw [int64Accepts_digits d rest hd hd0 hrest]
      exact decide_eq_true_iff
    · simp only [if_true]
      rw [int64Accepts_neg_digits d rest hd hd0 hrest]
      exact decide_eq_true_iff
  · intro n
    have hbase : int64Accepts (JVal.int n) = safeInt n := rfl
    rw [hbase]
    simp [safeInt]

/-- Claim C5, witness: the nineteen-nines string is accepted and a small
integer is accepted. -/
theorem int64_numeral_and_reject_law_witness :
    (int64Accepts (JVal.str (String.mk ('9' :: List.replicate 18 '9'))) = true ↔
      (List.replicate 18 '9').length + 1 ≤ 19) ∧
    (int64Accepts (JVal.int 42) = true ↔ (42 : Int).natAbs ≤ 2 ^ 53 - 1) := by
  have h := int64_numeral_and_reject_law false '9' (List.replicate 18 '9')
    (by decide) (by decide) (by decide)
  exact ⟨h.1, h.2.2.2.2.2.2.2 42⟩

/-- Helper: `setValidate` on an object input reduces to the descriptor
branch (an object never passes the array branch). -/
theorem setValidate_obj (elem : JVal → Bool) (fs : List (String × JVal)) :
    setValidate elem (JVal.obj fs) =
      (fs.all (fun kv => kv.1 == "add" || kv.1 == "remove") &&
       (hasDefinedKey fs "add" || hasDefinedKey fs "remove") &&
       fs.all (fun kv => !definedB kv.2 || arrayOk elem true kv.2)) := rfl

/-- Helper: `listValidate` on an object input reduces to the descriptor
branch. -/
theorem listValidate_obj (elem : JVal → Bool) (fs : List (String × JVal)) :
    listValidate elem (JVal.obj fs) =
      (fs.all (fun kv => kv.1 == "prepend" || kv.1 == "append" || kv.1 == "remove" || kv.1 == "index") &&
       (hasDefinedKey fs "prepend" || hasDefinedKey fs "append" ||
        hasDefinedKey fs "remove" || hasDefinedKey fs "index") &&
       fs.all (fun kv => !definedB kv.2 ||
         (if kv.1 == "index" then indexOk elem kv.2 else arrayOk elem false kv.2))) := rfl

/-- Helper: under well-typedness of the entries, the set descriptor
validity is exactly no-unknown-key and some-recognized-key. -/
theorem setValidate_obj_eq (elem : JVal → Bool) (fs : List (String × JVal))
    (hdef : ∀ kv ∈ fs, definedB kv.2 = true)
    (hset : ∀ kv ∈ fs, (kv.1 = "add" ∨ kv.1 = "remove") → arrayOk elem true kv.2 = true) :
    setValidate elem (JVal.obj fs) = (!(setUnknownB fs) && setRecognizedB fs) := by
  rw [setValidate_obj]
  cases hU : setUnknownB fs with
  | true =>
    obtain ⟨kv, hkv, hnr⟩ := List.any_eq_true.mp hU
    have hA : fs.all (fun kv => kv.1 == "add" || kv.1 == "remove") = false := by
      cases hA : fs.all (fun kv => kv.1 == "add" || kv.1 == "remove") with
      | false => rfl
      | true =>
        have := List.all_eq_true.mp hA kv hkv
        simp [this] at hnr
    simp [hA]
  | false =>
    have hAll : ∀ kv ∈ fs, (kv.1 == "add" || kv.1 == "remove") = true := by
      intro kv hkv
      cases hc : (kv.1 == "add" || kv.1 == "remove") with
      | true => rfl
      | false =>
        have ht : setUnknownB fs = true := List.any_eq_true.mpr ⟨kv, hkv, by simp [hc]⟩
        rw [ht] at hU
        exact Bool.noConfusion hU
    have hA : fs.all (fun kv => kv.1 == "add" || kv.1 == "remove") = true :=
      List.all_eq_true.mpr hAll
    have hC : fs.all (fun kv => !definedB kv.2 || arrayOk elem true kv.2) = true := by
      refine List.all_eq_true.mpr ?_
      intro kv hkv
      have harr : arrayOk elem true kv.2 = true := by
        refine hset kv hkv ?_
        have hrec := hAll kv hkv
        rw [Bool.or_eq_true] at hrec
        rcases hrec with h | h
        · exact Or.inl (eq_of_beq h)
        · exact Or.inr (eq_of_beq h)
      simp [harr]
    cases hR : setRecognizedB fs with
    | false =>
      have hBadd : hasDefinedKey fs "add" = false := by
        cases hB : hasDefinedKey fs "add" with
        | false => rfl
        | true =>
          obtain ⟨kv, hkv, hp⟩ := List.any_eq_true.mp hB
          rw [Bool.and_eq_true] at hp
          have ht : setRecognizedB fs = true :=
            List.any_eq_true.mpr ⟨kv, hkv, by simp [hp.1]⟩
          rw [ht] at hR
          exact Bool.noConfusion hR
      have hBrem : hasDefinedKey fs "remove" = false := by
        cases hB : hasDefinedKey fs "remove" with
        | false => rfl
        | true =>
          obtain ⟨kv, hkv, hp⟩ := List.any_eq_true.mp hB
          rw [Bool.and_eq_true] at hp
          have ht : setRecognizedB fs = true :=
            List.any_eq_true.mpr ⟨kv, hkv, by simp [hp.1]⟩
          rw [ht] at hR
          exact Bool.noConfusion hR
      simp [hBadd, hBrem]
    | true =>
      obtain ⟨kv, hkv, hrec⟩ := List.any_eq_true.mp hR
      have hdefk := hdef kv hkv
      have hB : (hasDefinedKey fs "add" || hasDefinedKey fs "remove") = true := by
        rw [Bool.or_eq_true] at hrec ⊢
        rcases hrec with h | h
        · exact Or.inl (List.any_eq_true.mpr ⟨kv, hkv, by simp [h, hdefk]⟩)
        · exact Or.inr (List.any_eq_true.mpr ⟨kv, hkv, by simp [h, hdefk]⟩)
      rw [hA, hB, hC]
      rfl

/-- Helper: under well-typedness of the entries, the list descriptor
validity is exactly no-unknown-key and some-recognized-key. -/
theorem listValidate_obj_eq (elem : JVal → Bool) (fs : List (String × JVal))
    (hdef : ∀ kv ∈ fs, definedB kv.2 = true)
    (hlist : ∀ kv ∈ fs, (kv.1 = "prepend" ∨ kv.1 = "append" ∨ kv.1 = "remove") →
      arrayOk elem false kv.2 = true)
    (hidx : ∀ kv ∈ fs, kv.1 = "index" → indexOk elem kv.2 = true) :
    listValidate elem (JVal.obj fs) = (!(listUnknownB fs) && listRecognizedB fs) := by
  rw [listValidate_obj]
  cases hU : listUnknownB fs with
  | true =>
    obtain ⟨kv, hkv, hnr⟩ := List.any_eq_true.mp hU
    have hA : fs.all (fun kv => kv.1 == "prepend" || kv.1 == "append" ||
        kv.1 == "remove" || kv.1 == "index") = false := by
      cases hA : fs.all (fun kv => kv.1 == "prepend" || kv.1 == "append" ||
          kv.1 == "remove" || kv.1 == "index") with
      | false => rfl
      | true =>
        have := List.all_eq_true.mp hA kv hkv
        simp [this] at hnr
    simp [hA]
  | false =>
    have hAll : ∀ kv ∈ fs, (kv.1 == "prepend" || kv.1 == "append" ||
        kv.1 == "remove" || kv.1 == "index") = true := by
      intro kv hkv
      cases hc : (kv.1 == "prepend" || kv.1 == "append" || kv.1 == "remove" || kv.1 == "index") with
      | true => rfl
      | false =>
        have ht : listUnknownB fs = true := List.any_eq_true.mpr ⟨kv, hkv, by simp [hc]⟩
        rw [ht] at hU
        exact Bool.noConfusion hU
    have hA : fs.all (fun kv => kv.1 == "prepend" || kv.1 == "append" ||
        kv.1 == "remove" || kv.1 == "index") = true := List.all_eq_true.mpr hAll
    have hC : fs.all (fun kv => !definedB kv.2 ||
        (if kv.1 == "index" then indexOk elem kv.2 else arrayOk elem false kv.2)) = true := by
      refine List.all_eq_true.mpr ?_
      intro kv hkv
      have hrec := hAll kv hkv
      rw [Bool.or_eq_true, Bool.or_eq_true, Bool.or_eq_true] at hrec
      rcases hrec with ((h | h) | h) | h
      · have hk := eq_of_beq h
        have := hlist kv hkv (Or.inl hk)
        simp [hk, this]
      · have hk := eq_of_beq h
        have := hlist kv hkv (Or.inr (Or.inl hk))
        simp [hk, this]
      · have hk := eq_of_beq h
        have := hlist kv hkv (Or.inr (Or.inr hk))
        simp [hk, this]
      · have hk := eq_of_beq h
        have := hidx kv hkv hk
        simp [hk, this]
    cases hR : listRecognizedB fs with
    | false =>
      have hBfalse : ∀ k, k = "prepend" ∨ k = "append" ∨ k = "remove" ∨ k = "index" →
          hasDefinedKey fs k = false := by
        intro k hkname
        cases hB : hasDefinedKey fs k with
        | false => rfl
        | true =>
          obtain ⟨kv, hkv, hp⟩ := List.any_eq_true.mp hB
          rw [Bool.and_eq_true] at hp
          have hkk : kv.1 = k := eq_of_beq hp.1
          have ht : listRecognizedB fs = true := by
            refine List.any_eq_true.mpr ⟨kv, hkv, ?_⟩
            rcases hkname with rfl | rfl | rfl | rfl <;> simp [hkk]
          rw [ht] at hR
          exact Bool.noConfusion hR
      have h1 := hBfalse "prepend" (Or.inl rfl)
      have h2 := hBfalse "append" (Or.inr (Or.inl rfl))
      have h3 := hBfalse "remove" (Or.inr (Or.inr (Or.inl rfl)))
      have h4 := hBfalse "index" (Or.inr (Or.inr (Or.inr rfl)))
      simp [h1, h2, h3, h4]
    | true =>
      obtain ⟨kv, hkv, hrec⟩ := List.any_eq_true.mp hR
      have hdefk := hdef kv hkv
      have hB : (hasDefinedKey fs "prepend" || hasDefinedKey fs "append" ||
          hasDefinedKey fs "remove" || hasDefinedKey fs "index") = true := by
        rw [Bool.or_eq_true, Bool.or_eq_true, Bool.or_eq_true] at hrec ⊢
        rcases hrec with ((h | h) | h) | h
        · exact Or.inl (Or.inl (Or.inl (List.any_eq_true.mpr ⟨kv, hkv, by simp [h, hdefk]⟩)))
        · exact Or.inl (Or.inl (Or.inr (List.any_eq_true.mpr ⟨kv, hkv, by simp [h, hdefk]⟩)))
        · exact Or.inl (Or.inr (List.any_eq_true.mpr ⟨kv, hkv, by simp [h, hdefk]⟩))
        · exact Or.inr (List.any_eq_true.mpr ⟨kv, hkv, by simp [h, hdefk]⟩)
      rw [hA, hB, hC]
      rfl

/-- Claim C8.  For list and set validators, a partial-update descriptor
object whose recognised entries are well-typed yields a validation error
IF AND ONLY IF it contains no recognised key or contains an unrecognised
key; in particular `\x7bremove: ["x"]\x7d` with text elements validates,
while the empty descriptor and a descriptor mixing a recognised key with
an unknown key fail. -/
theorem collection_descriptor_validity (elem : JVal → Bool) (fs : List (String × JVal))
    (hdef : ∀ kv ∈ fs, definedB kv.2 = true)
    (hset : ∀ kv ∈ fs, (kv.1 = "add" ∨ kv.1 = "remove") → arrayOk elem true kv.2 = true)
    (hlist : ∀ kv ∈ fs, (kv.1 = "prepend" ∨ kv.1 = "append" ∨ kv.1 = "remove") →
      arrayOk elem false kv.2 = true)
    (hidx : ∀ kv ∈ fs, kv.1 = "index" → indexOk elem kv.2 = true) :
    (setValidate elem (JVal.obj fs) = false ↔
      (setRecognizedB fs = false ∨ setUnknownB fs = true)) ∧
    (listValidate elem (JVal.obj fs) = false ↔
      (listRecognizedB fs = false ∨ listUnknownB fs = true)) ∧
    setValidate textAccepts (JVal.obj [("remove", JVal.arr [JVal.str "x"])]) = true ∧
    listValidate textAccepts (JVal.obj [("remove", JVal.arr [JVal.str "x"])]) = true ∧
    setValidate textAccepts (JVal.obj []) = false ∧
    listValidate textAccepts (JVal.obj []) = false ∧
    listValidate textAccepts
      (JVal.obj [("append", JVal.arr [JVal.str "x"]), ("bogus", JVal.int 1)]) = false ∧
    setValidate textAccepts
      (JVal.obj [("add", JVal.arr [JVal.str "x"]), ("bogus", JVal.int 1)]) = false := by
  refine ⟨?_, ?_, rfl, rfl, rfl, rfl, rfl, rfl⟩
  · rw [setValidate_obj_eq elem fs hdef hset]
    cases setUnknownB fs <;> cases setRecognizedB fs <;> simp
  · rw [listValidate_obj_eq elem fs hdef hlist hidx]
    cases listUnknownB fs <;> cases listRecognizedB fs <;> simp

/-- Claim C8, witness: the descriptor law instantiated at text elements
and the mixed descriptor of the claim. -/
theorem collection_descriptor_validity_witness :
    (setValidate textAccepts
        (JVal.obj [("append", JVal.arr [JVal.str "x"]), ("bogus", JVal.int 1)]) = false ↔
      (setRecognizedB [("append", JVal.arr [JVal.str "x"]), ("bogus", JVal.int 1)] = false ∨
       setUnknownB [("append", JVal.arr [JVal.str "x"]), ("bogus", JVal.int 1)] = true)) ∧
    (listValidate textAccepts
        (JVal.obj [("append", JVal.arr [JVal.str "x"]), ("bogus", JVal.int 1)]) = false ↔
      (listRecognizedB [("append", JVal.arr [JVal.str "x"]), ("bogus", JVal.int 1)] = false ∨
       listUnknownB [("append", JVal.arr [JVal.str "x"]), ("bogus", JVal.int 1)] = true)) := by
  have h := collection_descriptor_validity textAccepts
    [("append", JVal.arr [JVal.str "x"]), ("bogus", JVal.int 1)]
    (by decide) (by decide) (by decide) (by decide)
  exact ⟨h.1, h.2.1⟩
